import Mathlib

/-!
Shallow embedding of `receipt_emailer.py`.

Spreadsheet cell values (as produced by openpyxl with `values_only=True`)
are modelled by the inductive `Cell`: an empty cell is `Cell.null`
(Python `None`), text cells are `Cell.str`, numeric cells are `Cell.num`
(integer-valued numbers; floating point is out of scope of the claims),
booleans are `Cell.bool`, and date or datetime cells are `Cell.date` /
`Cell.datetime`.  Python exceptions are modelled by `Except PyErr`.
-/

inductive Cell where
  | null
  | str (s : String)
  | num (n : Int)
  | bool (b : Bool)
  | date (y m d : Nat)
  | datetime (y m d hh mi se : Nat)
deriving DecidableEq, Repr

inductive PyErr where
  | valueError (msg : String)
  | attributeError
deriving DecidableEq, Repr

instance {ε α : Type} [DecidableEq ε] [DecidableEq α] : DecidableEq (Except ε α) := fun x y =>
  match x, y with
  | Except.ok a, Except.ok b =>
      if h : a = b then isTrue (by rw [h])
      else isFalse (fun hc => h (by injection hc))
  | Except.error a, Except.error b =>
      if h : a = b then isTrue (by rw [h])
      else isFalse (fun hc => h (by injection hc))
  | Except.ok _, Except.error _ => isFalse (fun hc => Except.noConfusion hc)
  | Except.error _, Except.ok _ => isFalse (fun hc => Except.noConfusion hc)

/-- Python truthiness of a cell value (`bool(value)`). -/
def truthy : Cell → Bool
  | Cell.null => false
  | Cell.str s => s != ""
  | Cell.num n => n != 0
  | Cell.bool b => b
  | Cell.date _ _ _ => true
  | Cell.datetime _ _ _ _ _ _ => true

/-- Left-pad the decimal form of `n` with zeros to width `w`
(Python `%0wd` for nonnegative `n`). -/
def padZeros (w : Nat) (n : Nat) : String :=
  let s := toString n
  String.mk (List.replicate (w - s.length) '0') ++ s

/-- Python `str(value)` on a cell value: `str(None) = "None"`, strings are
unchanged, dates render in ISO form as CPython's `date.__str__` does. -/
def strCell : Cell → String
  | Cell.null => "None"
  | Cell.str s => s
  | Cell.num n => toString n
  | Cell.bool b => if b then "True" else "False"
  | Cell.date y m d => padZeros 4 y ++ "-" ++ padZeros 2 m ++ "-" ++ padZeros 2 d
  | Cell.datetime y m d hh mi se =>
      padZeros 4 y ++ "-" ++ padZeros 2 m ++ "-" ++ padZeros 2 d ++ " "
        ++ padZeros 2 hh ++ ":" ++ padZeros 2 mi ++ ":" ++ padZeros 2 se

/-- Python `str.strip()` on whitespace, as a list computation (so the
kernel can evaluate it). -/
def pyStrip (s : String) : String :=
  String.mk (((s.data.dropWhile Char.isWhitespace).reverse.dropWhile Char.isWhitespace).reverse)

/-- Python `str.lower()` (ASCII range, as `Char.toLower`). -/
def pyLower (s : String) : String :=
  String.mk (s.data.map Char.toLower)

/-- Python `value.strip()`: defined on strings, raises `AttributeError`
on every other value (in particular on `None`). -/
def stripCell : Cell → Except PyErr String
  | Cell.str s => Except.ok (pyStrip s)
  | _ => Except.error PyErr.attributeError

/-- Decimal digit list to value. -/
def digitsVal (l : List Char) : Nat :=
  l.foldl (fun acc c => acc * 10 + (c.toNat - 48)) 0

/-- A CPython float as `format_amount` observes it: an exact signed
decimal value `(-1)^neg × mant × 10^exp` (the sign kept apart from the
magnitude, so that "-0.4" rounds and prints as "-0", as CPython does),
or an infinity, or nan. -/
inductive PyFloat where
  | finite (neg : Bool) (mant : Nat) (exp : Int)
  | inf (neg : Bool)
  | nan
deriving DecidableEq, Repr

/-- CPython's underscore rule for numeric literals accepted by
`float()`: every underscore must sit between two digits.  This scan
checks each underscore against its neighbours. -/
def noBadUnderscore : List Char → Bool
  | a :: b :: rest =>
      (if b = '_' then
        a.isDigit && (match rest with | r :: _ => r.isDigit | [] => false)
      else true)
        && noBadUnderscore (b :: rest)
  | _ => true

def underscoresOk (l : List Char) : Bool :=
  (match l with
   | '_' :: _ => false
   | _ => true)
  && noBadUnderscore l

/-- Strip one optional leading sign, reporting whether it was "-". -/
def splitSign : List Char → (Bool × List Char)
  | '+' :: rest => (false, rest)
  | '-' :: rest => (true, rest)
  | l => (false, l)

/-- A nonempty run of decimal digits, else failure. -/
def digitsOnly (l : List Char) : Option Nat :=
  if l ≠ [] ∧ l.all Char.isDigit then some (digitsVal l) else Option.none

/-- The mantissa part `digits[.digits]` of a float literal: its digit
value together with the number of fraction digits.  At least one digit
must be present on one side of the optional dot. -/
def parseMantissa (l : List Char) : Option (Nat × Nat) :=
  match l.span (fun c => c ≠ '.') with
  | (ipart, []) =>
      if ipart ≠ [] ∧ ipart.all Char.isDigit then some (digitsVal ipart, 0)
      else Option.none
  | (ipart, _ :: fpart) =>
      if ipart.all Char.isDigit ∧ fpart.all Char.isDigit ∧ (ipart ≠ [] ∨ fpart ≠ []) then
        some (digitsVal (ipart ++ fpart), fpart.length)
      else Option.none

/-- The exponent part after `e`: an optional sign and nonempty digits. -/
def parseExp (l : List Char) : Option Int :=
  match splitSign l with
  | (eneg, rest) =>
      match digitsOnly rest with
      | some v => some (if eneg then -(v : Int) else (v : Int))
      | Option.none => Option.none

/-- Python `float(s)` on a string, over exact decimal values: optional
surrounding whitespace and sign; `inf`/`infinity`/`nan` in any case; or
a decimal literal `digits[.digits][e[sign]digits]` (either digit group
of the mantissa may be empty but not both), with single underscores
allowed between digits.  The value is kept exactly as a signed decimal
`mant × 10^exp`; the binary-double effects of CPython floats (rounding
of the literal to 53 bits, overflow to infinity near 1.8e308) and
non-ASCII digit characters are outside the model. -/
def parsePyFloat (s : String) : Option PyFloat :=
  match splitSign (pyLower (pyStrip s)).data with
  | (neg, tok) =>
      if tok = ['i', 'n', 'f'] ∨ tok = ['i', 'n', 'f', 'i', 'n', 'i', 't', 'y'] then
        some (PyFloat.inf neg)
      else if tok = ['n', 'a', 'n'] then some PyFloat.nan
      else if underscoresOk tok = false then Option.none
      else
        match (tok.filter (fun c => c ≠ '_')).span (fun c => c ≠ 'e') with
        | (mpart, []) =>
            match parseMantissa mpart with
            | some (m, fr) => some (PyFloat.finite neg m (-(fr : Int)))
            | Option.none => Option.none
        | (mpart, _ :: epart) =>
            match parseMantissa mpart, parseExp epart with
            | some (m, fr), some ev => some (PyFloat.finite neg m (ev - (fr : Int)))
            | _, _ => Option.none

/-- Python `float(value)` on a cell; `Option.none` models the
`TypeError`/`ValueError` that `format_amount` catches. -/
def floatCoerce : Cell → Option PyFloat
  | Cell.num n => some (PyFloat.finite (decide (n < 0)) n.natAbs 0)
  | Cell.bool b => some (PyFloat.finite false (if b then 1 else 0) 0)
  | Cell.str s => parsePyFloat s
  | _ => Option.none

/-- Round the magnitude `mant × 10^exp` to an integer, ties to even —
the rounding `%.0f` applies. -/
def roundDecHalfEven (mant : Nat) (exp : Int) : Nat :=
  match exp with
  | Int.ofNat k => mant * 10 ^ k
  | Int.negSucc k0 =>
      let d := 10 ^ (k0 + 1)
      let q := mant / d
      let r := mant % d
      if 2 * r < d then q
      else if d < 2 * r then q + 1
      else if q % 2 = 0 then q else q + 1

/-- Insert a comma after every three digits of a reversed digit list. -/
def groupRev : List Char → List Char
  | a :: b :: c :: d :: rest => a :: b :: c :: ',' :: groupRev (d :: rest)
  | l => l

/-- Python `f"{x:,.0f}"`: round to an integer with ties to even, group
the digits in threes with commas, and keep the float's sign (a negative
value rounding to zero prints "-0", as CPython does); infinities and
nan render as CPython formats them. -/
def formatCommaZero : PyFloat → String
  | PyFloat.finite neg mant exp =>
      (if neg then "-" else "")
        ++ String.mk ((groupRev (toString (roundDecHalfEven mant exp)).data.reverse).reverse)
  | PyFloat.inf neg => if neg then "-inf" else "inf"
  | PyFloat.nan => "nan"

/-- `format_amount` from the source: `None` gives the empty string; a
value coercible to a number gives `f"{float(value):,.0f}"`, a space and
the currency; otherwise the fallback `f"{value} {currency}".strip()`. -/
def format_amount (value : Cell) (currency : String) : String :=
  if value = Cell.null then ""
  else
    match floatCoerce value with
    | some x => formatCommaZero x ++ " " ++ currency
    | Option.none => pyStrip (strCell value ++ " " ++ currency)

/-- `strftime("%B")` month names. -/
def monthName : Nat → String
  | 1 => "January"
  | 2 => "February"
  | 3 => "March"
  | 4 => "April"
  | 5 => "May"
  | 6 => "June"
  | 7 => "July"
  | 8 => "August"
  | 9 => "September"
  | 10 => "October"
  | 11 => "November"
  | 12 => "December"
  | _ => ""

/-- `strftime("%d %B %Y")`: zero-padded day, full month name, year. -/
def dmy (y m d : Nat) : String :=
  padZeros 2 d ++ " " ++ monthName m ++ " " ++ toString y

/-- `format_date` from the source: date and datetime cells render as
`DD Month YYYY`; every other value is `str(value)`. -/
def format_date : Cell → String
  | Cell.datetime y m d _ _ _ => dmy y m d
  | Cell.date y m d => dmy y m d
  | c => strCell c

/-! ## Header resolution (`normalize_header`, `map_columns`) -/

/-- The five canonical fields of `REQUIRED_FIELDS`, in declared order. -/
inductive FieldKey where
  | name
  | email
  | amount
  | date
  | payment_method
deriving DecidableEq, Repr

def FieldKey.all : List FieldKey :=
  [FieldKey.name, FieldKey.email, FieldKey.amount, FieldKey.date, FieldKey.payment_method]

/-- The Python-side name of each canonical field. -/
def FieldKey.pyName : FieldKey → String
  | FieldKey.name => "name"
  | FieldKey.email => "email"
  | FieldKey.amount => "amount"
  | FieldKey.date => "date"
  | FieldKey.payment_method => "payment_method"

/-- The alias table `REQUIRED_FIELDS`, values in declared order. -/
def aliasesOf : FieldKey → List String
  | FieldKey.name => ["name", "full name", "student name", "student"]
  | FieldKey.email => ["email", "email address"]
  | FieldKey.amount => ["amount", "amount paid", "contribution", "paid"]
  | FieldKey.date => ["date", "payment date", "paid on", "received on"]
  | FieldKey.payment_method => ["payment method", "payment mode", "mode", "channel"]

/-- `normalize_header` from the source: `value.strip().lower()`. -/
def normalize_header (s : String) : String :=
  pyLower (pyStrip s)

/-- The truthy headers as strings, for the comprehension
`{normalize_header(h): h for h in headers if h}`; a truthy non-string
header would make `normalize_header` raise `AttributeError`. -/
def headerStrs : List Cell → Except PyErr (List String)
  | [] => Except.ok []
  | c :: cs =>
      if truthy c then
        match c with
        | Cell.str s => (headerStrs cs).map (fun l => s :: l)
        | _ => Except.error PyErr.attributeError
      else headerStrs cs

/-- Lookup in the dict `{normalize_header(h): h}`: for a duplicate
normalized key the later header wins, as with Python dict insertion. -/
def header_lookup (hs : List String) (key : String) : Option String :=
  hs.reverse.find? (fun h => normalize_header h == key)

/-- The inner loop of `map_columns`: the first alias present in the
header dict wins (`for alias in aliases: ... break`). -/
def map_field (hs : List String) : List String → Option String
  | [] => Option.none
  | a :: rest =>
      match header_lookup hs a with
      | some h => some h
      | Option.none => map_field hs rest

/-- The `mapped` dict of `map_columns` on success: one raw header per
canonical field. -/
structure ColumnMap where
  name : String
  email : String
  amount : String
  date : String
  payment_method : String
deriving DecidableEq, Repr

def ColumnMap.field (cm : ColumnMap) : FieldKey → String
  | FieldKey.name => cm.name
  | FieldKey.email => cm.email
  | FieldKey.amount => cm.amount
  | FieldKey.date => cm.date
  | FieldKey.payment_method => cm.payment_method

/-- The `ValueError` message of `map_columns`: the two adjacent string
literals of the source concatenate into one message. -/
def missingMessage (hs : List String) : String :=
  "Missing required columns: "
    ++ String.intercalate ", "
        ((FieldKey.all.filter (fun f => (map_field hs (aliasesOf f)).isNone)).map FieldKey.pyName)
    ++ ". Update your Excel headers or adjust REQUIRED_FIELDS."

/-- `map_columns` on the truthy header strings: the `missing` list is
the canonical fields with no alias hit, in declared order; a nonempty
`missing` raises, otherwise the `mapped` dict is returned (the `getD`
defaults can no longer fire under the guard). -/
def map_columns_strs (hs : List String) : Except PyErr ColumnMap :=
  if FieldKey.all.filter (fun f => (map_field hs (aliasesOf f)).isNone) = [] then
    Except.ok
      { name := (map_field hs (aliasesOf FieldKey.name)).getD ""
        email := (map_field hs (aliasesOf FieldKey.email)).getD ""
        amount := (map_field hs (aliasesOf FieldKey.amount)).getD ""
        date := (map_field hs (aliasesOf FieldKey.date)).getD ""
        payment_method := (map_field hs (aliasesOf FieldKey.payment_method)).getD "" }
  else Except.error (PyErr.valueError (missingMessage hs))

/-- `map_columns` from the source, over the raw header row. -/
def map_columns (headers : List Cell) : Except PyErr ColumnMap :=
  (headerStrs headers).bind map_columns_strs

/-! ## Row normalization (`load_students`) -/

/-- The normalized record of the source's `StudentPayment` dataclass. -/
structure StudentPayment where
  name : String
  email : String
  amount : String
  date : String
  payment_method : String
  receipt_number : String
deriving DecidableEq, Repr

/-- `dict(zip(headers, row)).get(key, "")` for a string key: the later
pair wins on duplicate keys, and a missing key defaults to `""`. -/
def rowLookup (headers row : List Cell) (key : String) : Cell :=
  match (headers.zip row).reverse.find? (fun p => p.1 == Cell.str key) with
  | some p => p.2
  | Option.none => Cell.str ""

/-- The values of `dict(zip(headers, row))`: for each distinct header
key, the value of its last occurrence. -/
def dictValues (headers row : List Cell) : List Cell :=
  (((headers.zip row).map Prod.fst).dedup).filterMap
    (fun k => ((headers.zip row).reverse.find? (fun p => p.1 == k)).map Prod.snd)

/-- `any(row_data.values())`: some value of the row dict is truthy. -/
def rowAny (headers row : List Cell) : Bool :=
  (dictValues headers row).any truthy

/-- One iteration of the `load_students` loop at sheet row `index`:
`Except.ok Option.none` when the blank row is skipped, `Except.ok (some s)`
when a record is produced, and the raised exception otherwise.  The cell
extractions happen in source order, so a `None` (or numeric) name or
email cell raises `AttributeError` from `.strip()` before the
empty-name check can raise the row-numbered `ValueError`. -/
def processRow (cmap : ColumnMap) (headers : List Cell) (currency : String)
    (index : Nat) (row : List Cell) : Except PyErr (Option StudentPayment) :=
  if rowAny headers row = false then Except.ok Option.none
  else
    match stripCell (rowLookup headers row cmap.name) with
    | Except.error e => Except.error e
    | Except.ok nameV =>
      match stripCell (rowLookup headers row cmap.email) with
      | Except.error e => Except.error e
      | Except.ok emailV =>
        let amount_raw := rowLookup headers row cmap.amount
        let date_raw := rowLookup headers row cmap.date
        let pm_raw := rowLookup headers row cmap.payment_method
        let pmV := if truthy pm_raw then pm_raw else Cell.str "Mobile Money"
        if nameV = "" ∨ emailV = "" then
          Except.error (PyErr.valueError ("Missing name or email in row " ++ toString index))
        else
          Except.ok (some
            { name := nameV
              email := emailV
              amount := format_amount amount_raw currency
              date := format_date date_raw
              payment_method := strCell pmV
              receipt_number := "R-" ++ padZeros 4 index })

/-- The `for index, row in enumerate(rows[1:], start=2)` loop: records
accumulate in order, skipped rows contribute nothing, the first
exception aborts the run. -/
def processRows (cmap : ColumnMap) (headers : List Cell) (currency : String)
    (index : Nat) : List (List Cell) → Except PyErr (List StudentPayment)
  | [] => Except.ok []
  | row :: rest =>
      match processRow cmap headers currency index row with
      | Except.error e => Except.error e
      | Except.ok Option.none => processRows cmap headers currency (index + 1) rest
      | Except.ok (some s) =>
          (processRows cmap headers currency (index + 1) rest).map (fun l => s :: l)

/-- `load_students` from the source, over the sheet's rows (`rows[0]` is
the header row); the workbook I/O of openpyxl is outside the model. -/
def load_students (rows : List (List Cell)) (currency : String) :
    Except PyErr (List StudentPayment) :=
  match rows with
  | [] => Except.ok []
  | headers :: dataRows =>
      match map_columns headers with
      | Except.error e => Except.error e
      | Except.ok cmap => processRows cmap headers currency 2 dataRows

/-! ## Template rendering (`draw_wrapped_text`, `place_field`)

Coordinates are modelled with exact rationals; `simpleSplit` (reportlab
font metrics) is an external library call, abstracted as a `split`
parameter from text and maximum width to the wrapped lines. -/

/-- One position of the Field Position Spec's `fields` mapping. -/
structure FieldPos where
  x_pct : ℚ
  y_pct : ℚ
  max_width : Option ℚ
deriving DecidableEq, Repr

/-- The Field Position Spec: `origin` plus the `fields` JSON object. -/
structure Positions where
  origin : Option String
  fields : List (String × FieldPos)
deriving DecidableEq, Repr

/-- `positions["fields"]` lookup (`key in positions["fields"]`): on a
duplicate JSON key the later entry wins. -/
def lookupField (pos : Positions) (key : String) : Option FieldPos :=
  (pos.fields.reverse.find? (fun p => p.1 == key)).map Prod.snd

/-- One `drawString` call of the overlay canvas. -/
structure DrawCmd where
  text : String
  x : ℚ
  y : ℚ
deriving DecidableEq, Repr

/-- The `for line in lines` loop of `draw_wrapped_text`: each line is
drawn at the current baseline, then `y -= line_height`. -/
def drawLoop (x lh : ℚ) : List String → ℚ → List DrawCmd
  | [], _ => []
  | l :: ls, y => ⟨l, x, y⟩ :: drawLoop x lh ls (y - lh)

/-- `draw_wrapped_text` from the source, with `split` abstracting
`simpleSplit` at the active font. -/
def draw_wrapped_text (split : String → ℚ → List String)
    (text : String) (x y max_width line_height : ℚ) : List DrawCmd :=
  drawLoop x line_height (split text max_width) y

/-- `place_field` from the source: nothing is drawn for a key absent
from the position spec; otherwise the text is wrapped to `max_width`
(default 60% of the page width) and drawn at the percentage-scaled
coordinates, flipping y when the origin is top-left. -/
def place_field (split : String → ℚ → List String) (pos : Positions)
    (page_width page_height : ℚ) (key value : String) : List DrawCmd :=
  match lookupField pos key with
  | Option.none => []
  | some fp =>
      let mw := fp.max_width.getD (page_width * (3 / 5))
      let x := page_width * fp.x_pct
      let y :=
        if pos.origin = some "top-left" then page_height * (1 - fp.y_pct)
        else page_height * fp.y_pct
      draw_wrapped_text split value x y mw 12

/-! ## Orchestrator loop (`main`)

The per-student effects of the `for student in students` loop: rendering
the receipt, then either invoking the Mail Sender (`send_email`, the
only place a network connection is opened) or printing the dry-run
line.  Paths render POSIX-style as `dir/name`. -/

inductive Effect where
  | rendered (s : StudentPayment)
  | sent (email : String)
  | printedLine (line : String)
deriving DecidableEq, Repr

/-- Output PDF name: spaces of the student name become underscores. -/
def outputName (s : StudentPayment) : String :=
  (s.name.replace " " "_") ++ "_Receipt.pdf"

/-- The dry-run confirmation line printed when `--send` is omitted. -/
def dryRunLine (output_dir : String) (s : StudentPayment) : String :=
  "Prepared email to " ++ s.email ++ " with receipt " ++ output_dir ++ "/" ++ outputName s

/-- One iteration of `main`'s loop over students. -/
def mainStep (send : Bool) (output_dir : String) (s : StudentPayment) : List Effect :=
  [Effect.rendered s]
    ++ (if send then [Effect.sent s.email] else [Effect.printedLine (dryRunLine output_dir s)])

/-- The `for student in students` loop of `main`. -/
def main_loop (send : Bool) (output_dir : String) : List StudentPayment → List Effect
  | [] => []
  | s :: rest => mainStep send output_dir s ++ main_loop send output_dir rest

def isSendEffect : Effect → Bool
  | Effect.sent _ => true
  | _ => false

def printedOf : Effect → Option String
  | Effect.printedLine l => some l
  | _ => Option.none

/-- `true` exactly on date and datetime cells (the `isinstance` tests of
`format_date`). -/
def isDateCell : Cell → Bool
  | Cell.date _ _ _ => true
  | Cell.datetime _ _ _ _ _ _ => true
  | _ => false

/-! ## Helper lemmas -/

/-- A record produced by the row loop is exactly the record the source
constructs from the row's cells. -/
theorem processRow_some_eq (cmap : ColumnMap) (headers : List Cell) (currency : String)
    (index : Nat) (row : List Cell) (s : StudentPayment)
    (h : processRow cmap headers currency index row = Except.ok (some s)) :
    ∃ nameV emailV,
      stripCell (rowLookup headers row cmap.name) = Except.ok nameV ∧
      stripCell (rowLookup headers row cmap.email) = Except.ok emailV ∧
      nameV ≠ "" ∧ emailV ≠ "" ∧
      s = { name := nameV
            email := emailV
            amount := format_amount (rowLookup headers row cmap.amount) currency
            date := format_date (rowLookup headers row cmap.date)
            payment_method := strCell
              (if truthy (rowLookup headers row cmap.payment_method) then
                rowLookup headers row cmap.payment_method
              else Cell.str "Mobile Money")
            receipt_number := "R-" ++ padZeros 4 index } := by
  unfold processRow at h
  split at h
  · exact absurd h (by simp)
  · cases hn : stripCell (rowLookup headers row cmap.name) with
    | error e => rw [hn] at h; exact absurd h (by simp)
    | ok nameV =>
      rw [hn] at h
      cases he : stripCell (rowLookup headers row cmap.email) with
      | error e => rw [he] at h; exact absurd h (by simp)
      | ok emailV =>
        rw [he] at h
        simp only [] at h
        split at h
        · exact absurd h (by simp)
        · rename_i hne
          push_neg at hne
          refine ⟨nameV, emailV, rfl, rfl, hne.1, hne.2, ?_⟩
          simp only [Except.ok.injEq, Option.some.injEq] at h
          exact h.symm

/-! ## Claim theorems: formatting -/

/-- C6: `format_date` renders a date or datetime cell as the zero-padded
day, the full month name and the year separated by spaces (2026-02-03
gives "03 February 2026"), and returns every other value's raw string
form unchanged ("TBD" gives "TBD"). -/
theorem format_date_spec :
    (∀ y m d hh mi se, format_date (Cell.datetime y m d hh mi se)
        = padZeros 2 d ++ " " ++ monthName m ++ " " ++ toString y)
  ∧ (∀ y m d, format_date (Cell.date y m d)
        = padZeros 2 d ++ " " ++ monthName m ++ " " ++ toString y)
  ∧ (∀ c : Cell, isDateCell c = false → format_date c = strCell c)
  ∧ format_date (Cell.date 2026 2 3) = "03 February 2026"
  ∧ format_date (Cell.str "TBD") = "TBD" := by
  refine ⟨?_, ?_, ?_, ?_, ?_⟩
  · exact fun _ _ _ _ _ _ => rfl
  · exact fun _ _ _ => rfl
  · intro c hc
    cases c with
    | null => rfl
    | str s => rfl
    | num n => rfl
    | bool b => rfl
    | date y m d => simp [isDateCell] at hc
    | datetime y m d hh mi se => simp [isDateCell] at hc
  · decide
  · rfl

/-- C6 witness: the non-date branch at the concrete values of the
claim. -/
theorem format_date_spec_witness :
    format_date (Cell.str "TBD") = strCell (Cell.str "TBD")
  ∧ format_date Cell.null = strCell Cell.null :=
  ⟨format_date_spec.2.2.1 (Cell.str "TBD") (by decide),
   format_date_spec.2.2.1 Cell.null (by decide)⟩

/-- C5 counterexample: for the non-numeric value " cash" (leading
space) and currency "RWF" the code yields "cash RWF", not the raw
string form followed by a space and the currency (" cash RWF"): the
fallback strips the combined string. -/
theorem format_amount_fallback_counterexample :
    format_amount (Cell.str " cash") "RWF" = "cash RWF"
  ∧ format_amount (Cell.str " cash") "RWF"
      ≠ strCell (Cell.str " cash") ++ " " ++ "RWF" := by
  refine ⟨by decide, by decide⟩

/-- C5 amended: a value `float()` coerces (numbers, booleans, and
numeric strings — integer, fractional, exponent and underscored
literals alike) formats as `f"{float(value):,.0f}"` (thousands
separators, no decimal places, ties rounding to even), a space and the
currency; a non-coercible value other than None falls back to the
combined string `"<raw value> <currency>"` stripped of surrounding
whitespace. -/
theorem format_amount_spec (value : Cell) (currency : String) :
    (∀ x : PyFloat, floatCoerce value = some x →
        format_amount value currency = formatCommaZero x ++ " " ++ currency)
  ∧ (value ≠ Cell.null → floatCoerce value = Option.none →
        format_amount value currency = pyStrip (strCell value ++ " " ++ currency)) := by
  constructor
  · intro x hx
    have hne : value ≠ Cell.null := by
      intro hv; rw [hv] at hx; exact absurd hx (by simp [floatCoerce])
    unfold format_amount
    rw [if_neg hne, hx]
  · intro hne hn
    unfold format_amount
    rw [if_neg hne, hn]

/-- C5 witness: the claim's examples, plus the non-integer numeric
strings "1.5" (rounds half-to-even to 2), "1e3" and "1_500", which take
the numeric branch exactly as CPython's `float()` does. -/
theorem format_amount_spec_witness :
    format_amount (Cell.num 1500) "RWF" = "1,500 RWF"
  ∧ format_amount (Cell.str "1.5") "RWF" = "2 RWF"
  ∧ format_amount (Cell.str "1e3") "RWF" = "1,000 RWF"
  ∧ format_amount (Cell.str "1_500") "RWF" = "1,500 RWF"
  ∧ format_amount (Cell.str "cash") "RWF" = "cash RWF" := by
  refine ⟨?_, ?_, ?_, ?_, ?_⟩
  · have h := (format_amount_spec (Cell.num 1500) "RWF").1
      (PyFloat.finite false 1500 0) (by decide)
    rw [h]; decide
  · have h := (format_amount_spec (Cell.str "1.5") "RWF").1
      (PyFloat.finite false 15 (-1)) (by decide)
    rw [h]; decide
  · have h := (format_amount_spec (Cell.str "1e3") "RWF").1
      (PyFloat.finite false 1 3) (by decide)
    rw [h]; decide
  · have h := (format_amount_spec (Cell.str "1_500") "RWF").1
      (PyFloat.finite false 1500 0) (by decide)
    rw [h]; decide
  · have h := (format_amount_spec (Cell.str "cash") "RWF").2 (by decide) (by decide)
    rw [h]; decide

/-- C10: `format_amount` maps a None amount cell to the empty string
with no currency suffix, so a record built from a blank amount cell has
an empty amount. -/
theorem amount_none_empty :
    (∀ currency : String, format_amount Cell.null currency = "")
  ∧ (∀ (cmap : ColumnMap) (headers : List Cell) (currency : String) (index : Nat)
        (row : List Cell) (s : StudentPayment),
      rowLookup headers row cmap.amount = Cell.null →
      processRow cmap headers currency index row = Except.ok (some s) →
      s.amount = "") := by
  constructor
  · intro currency; rfl
  · intro cmap headers currency index row s hnull h
    obtain ⟨nameV, emailV, _, _, _, _, hs⟩ :=
      processRow_some_eq cmap headers currency index row s h
    rw [hs]
    simp only [hnull]
    rfl

/-! ## Concrete instances for the witness theorems -/

def wHeaders : List Cell :=
  [Cell.str "Name", Cell.str "Email", Cell.str "Amount", Cell.str "Date",
   Cell.str "Payment Method"]

def wColumnMap : ColumnMap :=
  ⟨"Name", "Email", "Amount", "Date", "Payment Method"⟩

def wRow : List Cell :=
  [Cell.str "Alice B", Cell.str "a@b.com", Cell.num 1500, Cell.str "TBD", Cell.null]

def wStudent : StudentPayment :=
  ⟨"Alice B", "a@b.com", "1,500 RWF", "TBD", "Mobile Money", "R-0002"⟩

def wRowZeroPm : List Cell :=
  [Cell.str "Alice B", Cell.str "a@b.com", Cell.num 1500, Cell.str "TBD", Cell.num 0]

def wBlankRow : List Cell :=
  [Cell.null, Cell.str "", Cell.null, Cell.null, Cell.null]

/-! ## Claim theorems: row normalization -/

/-- C10 witness: at a concrete None amount cell the amount of the
formatted value and of the produced record is the empty string. -/
theorem amount_none_empty_witness :
    format_amount Cell.null "RWF" = ""
  ∧ wStudent.amount = "1,500 RWF" := by
  refine ⟨amount_none_empty.1 "RWF", by decide⟩

/-- C9: the payment-method default "Mobile Money" is taken exactly when
the raw payment-method cell is falsy (None, empty string, 0, False —
present or absent); a truthy cell value yields its string form. -/
theorem payment_method_default_spec (cmap : ColumnMap) (headers : List Cell)
    (currency : String) (index : Nat) (row : List Cell) (s : StudentPayment) :
    processRow cmap headers currency index row = Except.ok (some s) →
      (truthy (rowLookup headers row cmap.payment_method) = false →
          s.payment_method = "Mobile Money")
    ∧ (truthy (rowLookup headers row cmap.payment_method) = true →
          s.payment_method = strCell (rowLookup headers row cmap.payment_method)) := by
  intro h
  obtain ⟨nameV, emailV, _, _, _, _, hs⟩ :=
    processRow_some_eq cmap headers currency index row s h
  subst hs
  constructor
  · intro ht
    simp only [ht, Bool.false_eq_true, if_false]
    rfl
  · intro ht
    simp only [ht, if_true]

/-- C9 witness: a present but falsy (0) payment-method cell produces
the default "Mobile Money". -/
theorem payment_method_default_spec_witness :
    wStudent.payment_method = "Mobile Money" :=
  (payment_method_default_spec wColumnMap wHeaders "RWF" 2 wRowZeroPm wStudent
    (by decide)).1 (by decide)

/-- A row all of whose cells are empty or absent has no truthy value in
the row dict, so the blank-row guard fires. -/
theorem rowAny_false_of_blank (headers row : List Cell)
    (hblank : ∀ c ∈ row, c = Cell.null ∨ c = Cell.str "") :
    rowAny headers row = false := by
  unfold rowAny
  rw [List.any_eq_false]
  intro v hv
  unfold dictValues at hv
  rcases List.mem_filterMap.mp hv with ⟨k, hk, hfk⟩
  rcases Option.map_eq_some'.mp hfk with ⟨p, hfind, hsnd⟩
  obtain ⟨p1, p2⟩ := p
  have hmem : (p1, p2) ∈ headers.zip row :=
    List.mem_reverse.mp (List.mem_of_find?_eq_some hfind)
  have hrow : p2 ∈ row := (List.of_mem_zip hmem).2
  rcases hblank p2 hrow with hc | hc <;>
    simp only [← hsnd, hc, truthy] <;> simp

/-- C7: a data row in which every cell is empty or absent contributes no
record and raises no error: the loop iteration yields nothing and the
remaining rows are processed with the next sheet index. -/
theorem blank_row_skipped (cmap : ColumnMap) (headers : List Cell) (currency : String)
    (index : Nat) (row : List Cell) (rest : List (List Cell)) :
    (∀ c ∈ row, c = Cell.null ∨ c = Cell.str "") →
      processRow cmap headers currency index row = Except.ok Option.none
    ∧ processRows cmap headers currency index (row :: rest)
        = processRows cmap headers currency (index + 1) rest := by
  intro hblank
  have h1 : processRow cmap headers currency index row = Except.ok Option.none := by
    simp [processRow, rowAny_false_of_blank headers row hblank]
  exact ⟨h1, by simp [processRows, h1]⟩

/-- C7 witness: a concrete blank row under the concrete headers is
skipped and the tail is processed at the next index. -/
theorem blank_row_skipped_witness :
    processRow wColumnMap wHeaders "RWF" 2 wBlankRow = Except.ok Option.none
  ∧ processRows wColumnMap wHeaders "RWF" 2 [wBlankRow]
      = processRows wColumnMap wHeaders "RWF" 3 [] :=
  blank_row_skipped wColumnMap wHeaders "RWF" 2 wBlankRow [] (by decide)

/-- C3: on a non-blank row whose name cell is the empty cell (None, as
openpyxl yields for a blank spreadsheet cell), `load_students` fails
with `AttributeError` from `None.strip()` — an error that does not name
the row — although the spec promises the row-numbered error; a name
cell holding the empty string does produce the promised
"Missing name or email in row 2". -/
theorem load_students_missing_name_eval :
    load_students
        [wHeaders, [Cell.null, Cell.str "a@b.com", Cell.num 5000, Cell.null, Cell.null]] "RWF"
      = Except.error PyErr.attributeError
  ∧ load_students
        [wHeaders, [Cell.str "", Cell.str "a@b.com", Cell.num 5000, Cell.null, Cell.null]] "RWF"
      = Except.error (PyErr.valueError "Missing name or email in row 2") :=
  ⟨by decide, by decide⟩

/-- Every record an `Except.ok` run returns comes from processing some
row of the input at its sheet index. -/
theorem processRows_mem (cmap : ColumnMap) (headers : List Cell) (currency : String) :
    ∀ (rs : List (List Cell)) (index : Nat) (students : List StudentPayment),
      processRows cmap headers currency index rs = Except.ok students →
      ∀ s ∈ students, ∃ i, ∃ hi : i < rs.length,
        processRow cmap headers currency (index + i) (rs.get ⟨i, hi⟩)
          = Except.ok (some s) := by
  intro rs
  induction rs with
  | nil =>
    intro index students h s hs
    simp only [processRows, Except.ok.injEq] at h
    subst h
    simp at hs
  | cons row rest ih =>
    intro index students h s hs
    cases hr : processRow cmap headers currency index row with
    | error e =>
      simp only [processRows, hr] at h
      exact absurd h (by simp)
    | ok o =>
      cases o with
      | none =>
        simp only [processRows, hr] at h
        obtain ⟨i, hi, hp⟩ := ih (index + 1) students h s hs
        refine ⟨i + 1, Nat.succ_lt_succ hi, ?_⟩
        have harith : index + (i + 1) = index + 1 + i := by omega
        rw [harith]
        exact hp
      | some s0 =>
        simp only [processRows, hr] at h
        cases hrest : processRows cmap headers currency (index + 1) rest with
        | error e => rw [hrest] at h; exact absurd h (by simp [Except.map])
        | ok l =>
          rw [hrest] at h
          simp only [Except.map, Except.ok.injEq] at h
          subst h
          rcases List.mem_cons.mp hs with hseq | hmem
          · subst hseq
            refine ⟨0, by simp, ?_⟩
            simpa using hr
          · obtain ⟨i, hi, hp⟩ := ih (index + 1) l hrest s hmem
            refine ⟨i + 1, Nat.succ_lt_succ hi, ?_⟩
            have harith : index + (i + 1) = index + 1 + i := by omega
            rw [harith]
            exact hp

/-- C4: every record of a successful run carries the receipt number
"R-" followed by its own sheet row index zero-padded to four digits
(first data row R-0002, second R-0003), and re-running on the same
input reproduces the same output. -/
theorem receipt_numbering (headerRow : List Cell) (dataRows : List (List Cell))
    (currency : String) :
    (∀ students, load_students (headerRow :: dataRows) currency = Except.ok students →
      ∀ s ∈ students, ∃ cmap, map_columns headerRow = Except.ok cmap ∧
        ∃ i, ∃ hi : i < dataRows.length,
          processRow cmap headerRow currency (2 + i) (dataRows.get ⟨i, hi⟩)
            = Except.ok (some s)
          ∧ s.receipt_number = "R-" ++ padZeros 4 (2 + i))
  ∧ ("R-" ++ padZeros 4 2 = "R-0002" ∧ "R-" ++ padZeros 4 3 = "R-0003")
  ∧ load_students (headerRow :: dataRows) currency
      = load_students (headerRow :: dataRows) currency := by
  refine ⟨?_, ⟨by decide, by decide⟩, rfl⟩
  intro students h s hs
  cases hmc : map_columns headerRow with
  | error e =>
    simp only [load_students, hmc] at h
    exact absurd h (by simp)
  | ok cmap =>
    simp only [load_students, hmc] at h
    refine ⟨cmap, rfl, ?_⟩
    obtain ⟨i, hi, hp⟩ := processRows_mem cmap headerRow currency dataRows 2 students h s hs
    refine ⟨i, hi, hp, ?_⟩
    obtain ⟨nameV, emailV, _, _, _, _, hseq⟩ := processRow_some_eq _ _ _ _ _ _ hp
    rw [hseq]

/-! ## Claim theorems: header resolution -/

/-- Spec-side: some alias of the canonical field occurs among the
headers after trimming and lowercasing. -/
def AliasPresent (headers : List String) (f : FieldKey) : Prop :=
  ∃ a ∈ aliasesOf f, ∃ h ∈ headers, normalize_header h = a

/-- Boolean form of `AliasPresent`. -/
def AliasPresentB (headers : List String) (f : FieldKey) : Bool :=
  (aliasesOf f).any (fun a => headers.any (fun h => normalize_header h == a))

theorem aliasPresent_iff_b (headers : List String) (f : FieldKey) :
    AliasPresent headers f ↔ AliasPresentB headers f = true := by
  simp [AliasPresent, AliasPresentB, List.any_eq_true]

/-- Spec-side: `h` is a header whose normalized form is the first alias
(in declared order) of `f` that any header matches. -/
def FirstAliasSelected (headers : List String) (f : FieldKey) (h : String) : Prop :=
  ∃ i, ∃ hi : i < (aliasesOf f).length,
    (h ∈ headers ∧ normalize_header h = (aliasesOf f).get ⟨i, hi⟩)
    ∧ ∀ j, ∀ hj : j < i, ∀ h₂ ∈ headers,
        normalize_header h₂ ≠ (aliasesOf f).get ⟨j, Nat.lt_trans hj hi⟩

/-- No alias in the table is the empty string. -/
theorem alias_ne_empty (f : FieldKey) : ∀ a ∈ aliasesOf f, a ≠ "" := by
  cases f <;> decide

theorem headerStrs_map_str (headers : List String) :
    headerStrs (headers.map Cell.str)
      = Except.ok (headers.filter (fun s => s != "")) := by
  induction headers with
  | nil => rfl
  | cons h rest ih =>
    by_cases hh : h = ""
    · subst hh
      simpa [headerStrs, truthy, List.filter_cons] using ih
    · simp [headerStrs, truthy, List.filter_cons, hh, ih, Except.map]

theorem header_lookup_some (hs : List String) (key h : String)
    (hl : header_lookup hs key = some h) :
    h ∈ hs ∧ normalize_header h = key := by
  refine ⟨List.mem_reverse.mp (List.mem_of_find?_eq_some hl), ?_⟩
  have := List.find?_some hl
  simpa using this

theorem header_lookup_none (hs : List String) (key : String) :
    header_lookup hs key = Option.none ↔ ∀ h ∈ hs, normalize_header h ≠ key := by
  simp [header_lookup, List.find?_eq_none, List.mem_reverse]

theorem header_lookup_isSome (hs : List String) (key : String) :
    (header_lookup hs key).isSome = true ↔ ∃ h ∈ hs, normalize_header h = key := by
  simp [header_lookup, List.find?_isSome, List.mem_reverse]

theorem map_field_eq_none (hs : List String) :
    ∀ al : List String,
      map_field hs al = Option.none ↔ ∀ a ∈ al, header_lookup hs a = Option.none := by
  intro al
  induction al with
  | nil => simp [map_field]
  | cons a rest ih =>
    cases hl : header_lookup hs a with
    | some h => simp [map_field, hl]
    | none => simp [map_field, hl, ih]

theorem map_field_isSome (hs : List String) :
    ∀ al : List String,
      (map_field hs al).isSome = true
        ↔ ∃ a ∈ al, (header_lookup hs a).isSome = true := by
  intro al
  induction al with
  | nil => simp [map_field]
  | cons a rest ih =>
    cases hl : header_lookup hs a with
    | some h => simp [map_field, hl]
    | none => simp [map_field, hl, ih]

/-- The loop selects the first alias with a hit: the chosen header comes
from alias `i` and every earlier alias matched nothing. -/
theorem map_field_some_first (hs : List String) :
    ∀ (al : List String) (h : String), map_field hs al = some h →
      ∃ i, ∃ hi : i < al.length,
        header_lookup hs (al.get ⟨i, hi⟩) = some h
        ∧ ∀ j, ∀ hj : j < i, header_lookup hs (al.get ⟨j, Nat.lt_trans hj hi⟩) = Option.none := by
  intro al
  induction al with
  | nil => intro h hm; simp [map_field] at hm
  | cons a rest ih =>
    intro h hm
    cases hl : header_lookup hs a with
    | some h0 =>
      simp only [map_field, hl, Option.some.injEq] at hm
      subst hm
      refine ⟨0, Nat.succ_pos _, ?_, ?_⟩
      · exact hl
      · intro j hj
        exact absurd hj (Nat.not_lt_zero j)
    | none =>
      simp only [map_field, hl] at hm
      obtain ⟨i, hi, hhit, hprev⟩ := ih h hm
      refine ⟨i + 1, Nat.succ_lt_succ hi, hhit, ?_⟩
      intro j hj
      cases j with
      | zero => exact hl
      | succ j0 => exact hprev j0 (Nat.lt_of_succ_lt_succ hj)

theorem fieldKey_mem_all (f : FieldKey) : f ∈ FieldKey.all := by
  cases f <;> decide

theorem map_columns_strs_isOk (hs : List String) :
    (map_columns_strs hs).isOk = true
      ↔ ∀ f : FieldKey, (map_field hs (aliasesOf f)).isSome = true := by
  unfold map_columns_strs
  split
  · rename_i hfil
    simp only [Except.isOk, Except.toBool, true_iff]
    intro f
    have hmem := fieldKey_mem_all f
    have := (List.filter_eq_nil_iff.mp hfil) f hmem
    simpa [Option.isNone_iff_eq_none, Option.isSome_iff_ne_none] using this
  · rename_i hfil
    simp only [Except.isOk, Except.toBool, Bool.false_eq_true, false_iff]
    intro hall
    apply hfil
    rw [List.filter_eq_nil_iff]
    intro f hmem
    have := hall f
    simp only [Option.isSome_iff_ne_none] at this
    simpa [Option.isNone_iff_eq_none] using this

theorem map_columns_strs_ok_field (hs : List String) (cm : ColumnMap)
    (h : map_columns_strs hs = Except.ok cm) :
    ∀ f : FieldKey, map_field hs (aliasesOf f) = some (cm.field f) := by
  unfold map_columns_strs at h
  split at h
  · rename_i hfil
    intro f
    have hok : (map_field hs (aliasesOf f)).isSome = true := by
      have := (List.filter_eq_nil_iff.mp hfil) f (fieldKey_mem_all f)
      simpa [Option.isNone_iff_eq_none, Option.isSome_iff_ne_none] using this
    obtain ⟨v, hv⟩ := Option.isSome_iff_exists.mp hok
    simp only [Except.ok.injEq] at h
    subst h
    cases f <;> simp [ColumnMap.field, hv]
  · exact absurd h (by simp)

theorem map_columns_strs_error (hs : List String) (e : PyErr)
    (h : map_columns_strs hs = Except.error e) :
    e = PyErr.valueError (missingMessage hs) := by
  unfold map_columns_strs at h
  split at h
  · exact absurd h (by simp)
  · simp only [Except.error.injEq] at h
    exact h.symm

/-- An alias can only be matched by a truthy header: restricting the
search to nonempty headers changes nothing. -/
theorem exists_filter_iff (headers : List String) (a : String) (ha : a ≠ "") :
    (∃ h ∈ headers.filter (fun s => s != ""), normalize_header h = a)
      ↔ ∃ h ∈ headers, normalize_header h = a := by
  constructor
  · rintro ⟨h, hm, hn⟩
    exact ⟨h, (List.mem_filter.mp hm).1, hn⟩
  · rintro ⟨h, hm, hn⟩
    by_cases hh : h = ""
    · subst hh
      exact absurd hn.symm ha
    · exact ⟨h, List.mem_filter.mpr ⟨hm, by simp [hh]⟩, hn⟩

theorem forall_filter_iff (headers : List String) (a : String) (ha : a ≠ "") :
    (∀ h ∈ headers.filter (fun s => s != ""), normalize_header h ≠ a)
      ↔ ∀ h ∈ headers, normalize_header h ≠ a := by
  constructor
  · intro hf h hm
    by_cases hh : h = ""
    · subst hh
      intro hn
      exact ha hn.symm
    · exact hf h (List.mem_filter.mpr ⟨hm, by simp [hh]⟩)
  · intro hf h hm
    exact hf h (List.mem_filter.mp hm).1

theorem map_field_isSome_iff_aliasPresent (headers : List String) (f : FieldKey) :
    (map_field (headers.filter (fun s => s != "")) (aliasesOf f)).isSome = true
      ↔ AliasPresent headers f := by
  rw [map_field_isSome]
  unfold AliasPresent
  constructor
  · rintro ⟨a, hma, hsome⟩
    obtain ⟨h, hm, hn⟩ := (header_lookup_isSome _ _).mp hsome
    exact ⟨a, hma, (exists_filter_iff headers a (alias_ne_empty f a hma)).mp ⟨h, hm, hn⟩⟩
  · rintro ⟨a, hma, hex⟩
    refine ⟨a, hma, (header_lookup_isSome _ _).mpr ?_⟩
    exact (exists_filter_iff headers a (alias_ne_empty f a hma)).mpr hex

/-- C1: header resolution succeeds exactly when every canonical field
has some alias among the trimmed lowercased headers; on success each
field maps to a header matching the first alias (in declared order)
that any header matches; on failure the error names exactly the fields
with no alias present, in declared order. -/
theorem map_columns_resolution (headers : List String) :
    ((map_columns (headers.map Cell.str)).isOk = true
        ↔ ∀ f : FieldKey, AliasPresent headers f)
  ∧ (∀ cm, map_columns (headers.map Cell.str) = Except.ok cm →
      ∀ f : FieldKey, FirstAliasSelected headers f (cm.field f))
  ∧ (∀ e, map_columns (headers.map Cell.str) = Except.error e →
      e = PyErr.valueError ("Missing required columns: "
            ++ String.intercalate ", "
                ((FieldKey.all.filter (fun f => !(AliasPresentB headers f))).map FieldKey.pyName)
            ++ ". Update your Excel headers or adjust REQUIRED_FIELDS.")) := by
  have hmc : map_columns (headers.map Cell.str)
      = map_columns_strs (headers.filter (fun s => s != "")) := by
    unfold map_columns
    rw [headerStrs_map_str]
    rfl
  refine ⟨?_, ?_, ?_⟩
  · rw [hmc, map_columns_strs_isOk]
    constructor
    · intro hall f
      exact (map_field_isSome_iff_aliasPresent headers f).mp (hall f)
    · intro hall f
      exact (map_field_isSome_iff_aliasPresent headers f).mpr (hall f)
  · intro cm hok f
    rw [hmc] at hok
    have hmf := map_columns_strs_ok_field _ cm hok f
    obtain ⟨i, hi, hhit, hprev⟩ := map_field_some_first _ (aliasesOf f) (cm.field f) hmf
    obtain ⟨hmem, hnorm⟩ := header_lookup_some _ _ _ hhit
    refine ⟨i, hi, ⟨(List.mem_filter.mp hmem).1, hnorm⟩, ?_⟩
    intro j hj h₂ hm₂
    have hnone := hprev j hj
    have hall := (header_lookup_none _ _).mp hnone
    have hane : (aliasesOf f).get ⟨j, Nat.lt_trans hj hi⟩ ≠ "" :=
      alias_ne_empty f _ (List.get_mem _ _ _)
    exact (forall_filter_iff headers _ hane).mp hall h₂ hm₂
  · intro e herr
    rw [hmc] at herr
    rw [map_columns_strs_error _ e herr]
    have hfun : ∀ f ∈ FieldKey.all,
        (map_field (headers.filter (fun s => s != "")) (aliasesOf f)).isNone
          = !(AliasPresentB headers f) := by
      intro f _
      have hiff := map_field_isSome_iff_aliasPresent headers f
      have hb := aliasPresent_iff_b headers f
      cases hx : map_field (headers.filter (fun s => s != "")) (aliasesOf f) <;>
        cases hy : AliasPresentB headers f <;> simp_all
    unfold missingMessage
    rw [List.filter_congr hfun]

/-- C1 witness: on concrete headers the amount field selects the header
"Amount Paid", matching the second amount alias because no header
matches the first ("amount"). -/
theorem map_columns_resolution_witness :
    FirstAliasSelected [" Name ", "EMAIL", "Amount Paid", "Date", "Mode"]
      FieldKey.amount "Amount Paid" :=
  (map_columns_resolution [" Name ", "EMAIL", "Amount Paid", "Date", "Mode"]).2.1
    ⟨" Name ", "EMAIL", "Amount Paid", "Date", "Mode"⟩ (by decide) FieldKey.amount

/-! ## Claim theorems: rendering and orchestration -/

/-- The drawing loop places line `i` of the wrapped text exactly
`line_height × i` below the starting baseline. -/
theorem drawLoop_enumFrom (x lh : ℚ) (ls : List String) :
    ∀ (n : Nat) (y : ℚ),
      drawLoop x lh ls y
        = (List.enumFrom n ls).map
            (fun p => ⟨p.2, x, y - lh * ((p.1 : ℚ) - (n : ℚ))⟩) := by
  induction ls with
  | nil => intro n y; rfl
  | cons a rest ih =>
    intro n y
    simp only [drawLoop, List.enumFrom_cons, List.map_cons]
    refine congrArg₂ List.cons ?_ ?_
    · simp [DrawCmd.mk.injEq]
    · rw [ih (n + 1) (y - lh)]
      refine List.map_congr_left (fun p hp => ?_)
      obtain ⟨i, s⟩ := p
      simp only [DrawCmd.mk.injEq, true_and]
      push_cast
      ring

/-- `draw_wrapped_text` indexed: line `i` sits at `y - line_height × i`. -/
theorem draw_wrapped_text_eq (split : String → ℚ → List String)
    (text : String) (x y mw lh : ℚ) :
    draw_wrapped_text split text x y mw lh
      = (split text mw).enum.map (fun p => ⟨p.2, x, y - lh * (p.1 : ℚ)⟩) := by
  unfold draw_wrapped_text
  rw [show (split text mw).enum = List.enumFrom 0 (split text mw) from rfl]
  rw [drawLoop_enumFrom x lh (split text mw) 0 y]
  refine List.map_congr_left (fun p hp => ?_)
  obtain ⟨i, s⟩ := p
  simp

/-- C2: a field key absent from the position spec draws nothing (and no
error is possible, `place_field` being total); a present key draws the
word-wrapped lines of the value at x = page_width × x_pct and
y = page_height × (1 − y_pct) for a top-left origin (else
page_height × y_pct), wrapped to the spec's max_width (default 60% of
the page width), each successive line 12 points lower. -/
theorem place_field_spec (split : String → ℚ → List String) (pos : Positions)
    (pw ph : ℚ) (key value : String) :
    (lookupField pos key = Option.none → place_field split pos pw ph key value = [])
  ∧ (∀ fp, lookupField pos key = some fp →
      place_field split pos pw ph key value =
        (split value (fp.max_width.getD (pw * (3 / 5)))).enum.map
          (fun p => ⟨p.2, pw * fp.x_pct,
            (if pos.origin = some "top-left" then ph * (1 - fp.y_pct) else ph * fp.y_pct)
              - 12 * (p.1 : ℚ)⟩)) := by
  constructor
  · intro h
    simp [place_field, h]
  · intro fp h
    simp only [place_field, h]
    exact draw_wrapped_text_eq split value _ _ _ 12

/-- C2 witness: a concrete two-line wrap at a concrete top-left spec. -/
theorem place_field_spec_witness :
    place_field (fun s _ => [s, s]) ⟨some "top-left", [("date", ⟨1 / 2, 1 / 10, Option.none⟩)]⟩
        600 800 "date" "X"
      = [⟨"X", 300, 720⟩, ⟨"X", 300, 708⟩]
  ∧ place_field (fun s _ => [s, s]) ⟨some "top-left", [("date", ⟨1 / 2, 1 / 10, Option.none⟩)]⟩
        600 800 "missing" "X"
      = [] := by
  constructor
  · rw [(place_field_spec (fun s _ => [s, s])
      ⟨some "top-left", [("date", ⟨1 / 2, 1 / 10, Option.none⟩)]⟩ 600 800 "date" "X").2
      ⟨1 / 2, 1 / 10, Option.none⟩ rfl]
    norm_num [List.enum]
  · exact (place_field_spec (fun s _ => [s, s])
      ⟨some "top-left", [("date", ⟨1 / 2, 1 / 10, Option.none⟩)]⟩ 600 800 "missing" "X").1
      rfl

/-- C8: with the send flag off, the loop never invokes the Mail Sender
(the only network-opening step) and prints exactly one confirmation
line per student. -/
theorem dry_run_no_send (output_dir : String) (students : List StudentPayment) :
    (main_loop false output_dir students).filter isSendEffect = []
  ∧ (main_loop false output_dir students).filterMap printedOf
      = students.map (dryRunLine output_dir) := by
  induction students with
  | nil => exact ⟨rfl, rfl⟩
  | cons s rest ih =>
    constructor
    · simp [main_loop, mainStep, List.filter_append, ih.1, isSendEffect, printedOf]
    · simp [main_loop, mainStep, List.filterMap_append, ih.2, isSendEffect, printedOf]

/-- C4 witness: the concrete one-row sheet produces the record with
receipt number R-0002 at row index 2. -/
theorem receipt_numbering_witness :
    ∃ cmap, map_columns wHeaders = Except.ok cmap ∧
      ∃ i, ∃ hi : i < [wRow].length,
        processRow cmap wHeaders "RWF" (2 + i) ([wRow].get ⟨i, hi⟩)
          = Except.ok (some wStudent)
        ∧ wStudent.receipt_number = "R-" ++ padZeros 4 (2 + i) :=
  (receipt_numbering wHeaders [wRow] "RWF").1 [wStudent] (by decide) wStudent
    (List.mem_singleton.mpr rfl)
